import Mathlib

/-!
Shallow embedding of the terminal data-visualization engine of `flarectl`
(the chart/format module bundled in `src/lib`): resampling, quantized
sparklines, histograms, area charts, bar/progress/donut charts, tables and
numeric formatters.  JavaScript numbers are modelled as exact rationals
(`ℚ`); JavaScript strings are modelled as `List Char`.  Loops of the form
`for (let i = 0; i < n; i++) push(f i)` are modelled as `(List.range n).map f`.
`data[i] ?? 0` is modelled with `List.getD` (out-of-range access yields the
default, as in the source).
-/

namespace Flarectl

/- Batteries marks the `Rat` field operations `@[irreducible]`; re-opening
them lets `decide` evaluate the engine on concrete inputs (the kernel
ignores reducibility either way). -/
attribute [local semireducible] Rat.mul Rat.inv Rat.add Rat.sub Rat.ofScientific

/-- `String.prototype.padStart(n)` with spaces (no-op when already long enough). -/
def padStart (s : List Char) (n : Nat) : List Char :=
  List.replicate (n - s.length) ' ' ++ s

/-- `String.prototype.padEnd(n)` with spaces (no-op when already long enough). -/
def padEnd (s : List Char) (n : Nat) : List Char :=
  s ++ List.replicate (n - s.length) ' '

/-- `Math.min(...data)` for a non-empty spread; the `[]` case (JS: `Infinity`)
is never reached by the engine, which guards every call with a non-emptiness
check, so the default `0` is arbitrary. -/
def listMin : List ℚ → ℚ
  | [] => 0
  | x :: xs => xs.foldl min x

/-- `Math.max(...data)` for a non-empty spread; see `listMin` for the `[]` case. -/
def listMax : List ℚ → ℚ
  | [] => 0
  | x :: xs => xs.foldl max x

/-- The 8-level block glyph set `SPARKLINE_CHARS` of the source. -/
def SPARKLINE_CHARS : List Char := ['▁', '▂', '▃', '▄', '▅', '▆', '▇', '█']

/-- `BAR_FULL` of the source. -/
def BAR_FULL : Char := '█'

/-- `BAR_PARTIAL` of the source (eighth blocks; index 0 is the empty string). -/
def BAR_PARTIAL : List (List Char) :=
  [[], ['▏'], ['▎'], ['▍'], ['▌'], ['▋'], ['▊'], ['▉']]

/-- `resample(data, targetLength)` of the source.  The target length is an
`Int` (a JS number); both loops run `max targetLength 0` times, exactly as the
JS `for` loops do.  In the downsample branch with `targetLength = 0` the JS
`ratio` is `Infinity`; it is never used because the loop body never runs, so
the `ℚ` value `data.length / 0 = 0` is equally unused. -/
def resample (data : List ℚ) (targetLength : Int) : List ℚ :=
  if data.length = 0 then []
  else if (data.length : Int) = targetLength then data
  else if (data.length : Int) < targetLength then
    let scale : ℚ := ((data.length : ℚ) - 1) / ((targetLength : ℚ) - 1)
    (List.range targetLength.toNat).map (fun (i : Nat) =>
      let pos : ℚ := (i : ℚ) * scale
      let lower : Int := ⌊pos⌋
      let upper : Int := ⌈pos⌉
      let weight : ℚ := pos - (lower : ℚ)
      if lower = upper then data.getD lower.toNat 0
      else
        let lowerVal := data.getD lower.toNat 0
        let upperVal := data.getD upper.toNat 0
        lowerVal * (1 - weight) + upperVal * weight)
  else
    let scale : ℚ := (data.length : ℚ) / (targetLength : ℚ)
    (List.range targetLength.toNat).map (fun (i : Nat) =>
      let start : Int := ⌊(i : ℚ) * scale⌋
      let stop : Int := ⌊((i : ℚ) + 1) * scale⌋
      let bucket := (List.range data.length).filter
        (fun (j : Nat) => decide (start ≤ (j : Int)) && decide ((j : Int) < stop))
      let sum := bucket.foldl (fun acc j => acc + data.getD j 0) 0
      let count := bucket.length
      if 0 < count then sum / (count : ℚ) else 0)

/-- A positive rational reaches 1 after multiplication by a large enough power
of 10 (existence input for `Nat.find` in `jsToPrecision2`). -/
theorem exists_pow_ten_ge (x : ℚ) (hx : 0 < x) : ∃ k : Nat, 1 ≤ x * 10 ^ k := by
  obtain ⟨k, hk⟩ := pow_unbounded_of_one_lt x⁻¹ (by norm_num : (1 : ℚ) < 10)
  refine ⟨k, ?_⟩
  have h1 : x * x⁻¹ ≤ x * 10 ^ k :=
    mul_le_mul_of_nonneg_left (le_of_lt hk) (le_of_lt hx)
  rwa [mul_inv_cancel₀ (ne_of_gt hx)] at h1

/-- A rational is eventually below the powers of 10 (existence input for
`Nat.find` in `jsToPrecision2`). -/
theorem exists_lt_pow_ten (x : ℚ) : ∃ m : Nat, x < 10 ^ (m + 1) := by
  obtain ⟨k, hk⟩ := pow_unbounded_of_one_lt x (by norm_num : (1 : ℚ) < 10)
  exact ⟨k, lt_of_lt_of_le hk (pow_le_pow_right₀ (by norm_num) (Nat.le_succ k))⟩

/-- `Number.prototype.toFixed(f)` digit core for a non-negative rational,
following ECMA-262: `n` is the integer closest to `x * 10^f` with ties to the
larger `n` (Mathlib `round` rounds half toward `+∞`, which is exactly that
rule), rendered with a decimal point inserted `f` places from the right. -/
def toFixedDigits (x : ℚ) (f : Nat) : List Char :=
  let n : Nat := (round (x * (10 : ℚ) ^ f)).toNat
  let s := (Nat.repr n).toList
  if f = 0 then s
  else
    let s := if s.length ≤ f then List.replicate (f + 1 - s.length) '0' ++ s else s
    s.take (s.length - f) ++ '.' :: s.drop (s.length - f)

/-- `Number.prototype.toFixed(f)`; ECMA-262 sign-splits a negative input. -/
def jsToFixed (x : ℚ) (f : Nat) : List Char :=
  if x < 0 then '-' :: toFixedDigits (-x) f else toFixedDigits x f

/-- `Number.prototype.toPrecision(2)` for a non-negative rational, following
ECMA-262: pick integers `e`, `n` with `10 ≤ n ≤ 99` and `n * 10^(e-1)` closest
to `x` (ties to the larger `n`), then use exponential notation when `e < -6`
or `e ≥ 2` and positional notation otherwise.  The source only reaches this
on `|value| < 0.01`, but the model follows the ECMA algorithm on all of
`[0, ∞)`. -/
def jsToPrecision2 (x : ℚ) : List Char :=
  if hx : 0 < x then
    let e0 : Int :=
      if 1 ≤ x then (Nat.find (exists_lt_pow_ten x) : Int)
      else -(Nat.find (exists_pow_ten_ge x hx) : Int)
    let n0 : Int := round (x * (10 : ℚ) ^ ((1 : Int) - e0))
    let n : Int := if n0 = 100 then 10 else n0
    let e : Int := if n0 = 100 then e0 + 1 else e0
    let ds := (Nat.repr n.toNat).toList
    if e < -6 ∨ 2 ≤ e then
      ds.take 1 ++ '.' :: ds.drop 1 ++
        'e' :: (if e < 0 then '-' else '+') :: (Nat.repr e.natAbs).toList
    else if e = 1 then ds
    else if e = 0 then ds.take 1 ++ '.' :: ds.drop 1
    else '0' :: '.' :: List.replicate (-(e + 1)).toNat '0' ++ ds
  else ['0', '.', '0']

/-- `formatCompact(value)` of the source. -/
def formatCompact (value : ℚ) : List Char :=
  let absValue := |value|
  let sign : List Char := if value < 0 then ['-'] else []
  if (10 : ℚ) ^ 12 ≤ absValue then sign ++ jsToFixed (absValue / 10 ^ 12) 1 ++ ['T']
  else if (10 : ℚ) ^ 9 ≤ absValue then sign ++ jsToFixed (absValue / 10 ^ 9) 1 ++ ['B']
  else if (10 : ℚ) ^ 6 ≤ absValue then sign ++ jsToFixed (absValue / 10 ^ 6) 1 ++ ['M']
  else if (10 : ℚ) ^ 3 ≤ absValue then sign ++ jsToFixed (absValue / 10 ^ 3) 1 ++ ['K']
  else if 1 ≤ absValue then sign ++ jsToFixed absValue 0
  else if 1 / 100 ≤ absValue then sign ++ jsToFixed absValue 2
  else sign ++ jsToPrecision2 absValue

/-- The `units` array of `formatBytes`. -/
def BYTE_UNITS : List (List Char) :=
  [['B'], ['K', 'B'], ['M', 'B'], ['G', 'B'], ['T', 'B'], ['P', 'B']]

/-- The `while (size >= 1024 && unitIndex < units.length - 1)` loop of
`formatBytes`; called with `fuel = units.length - 1 - unitIndex`, so
`fuel > 0` is exactly `unitIndex < units.length - 1`. -/
def formatBytesLoop : ℚ → Nat → Nat → ℚ × Nat
  | size, unitIndex, 0 => (size, unitIndex)
  | size, unitIndex, fuel + 1 =>
    if 1024 ≤ size then formatBytesLoop (size / 1024) (unitIndex + 1) fuel
    else (size, unitIndex)

/-- `formatBytes(bytes)` of the source. -/
def formatBytes (bytes : ℚ) : List Char :=
  let p := formatBytesLoop |bytes| 0 5
  (if bytes < 0 then ['-'] else []) ++
    jsToFixed p.1 (if 0 < p.2 then 1 else 0) ++ ' ' :: BYTE_UNITS.getD p.2 []

/-- `formatDuration(ms)` of the source. -/
def formatDuration (ms : ℚ) : List Char :=
  if ms < 1 then jsToFixed (ms * 1000) 0 ++ ['µ', 's']
  else if ms < 1000 then jsToFixed ms 0 ++ ['m', 's']
  else if ms < 60000 then jsToFixed (ms / 1000) 1 ++ ['s']
  else jsToFixed (ms / 60000) 1 ++ ['m']

/-- `formatPercentage(value, decimals)` of the source. -/
def formatPercentage (value : ℚ) (decimals : Nat) : List Char :=
  jsToFixed value decimals ++ ['%']

/-- The per-sample glyph selection of `sparkline` (body of the `map` at lines
113–117 of the source): normalize against `min`/`range`, quantize to the
8-level set with an upper clamp at index 7 and a lower clamp at 0.  The
default of `getD` is unreachable: the clamped index is always in `[0, 7]`
(see the quantize-bounds theorem). -/
def sparklineChar (mn range value : ℚ) : Char :=
  let normalized := (value - mn) / range
  let index : Int := min ⌊normalized * (SPARKLINE_CHARS.length : ℚ)⌋
    ((SPARKLINE_CHARS.length : Int) - 1)
  SPARKLINE_CHARS.getD (max 0 index).toNat '▁'

/-- `SparklineOptions` of the source; `none` marks an absent (undefined)
option, resolved to the source's destructuring default at the call. -/
structure SparklineOptions where
  width : Option Int
  min : Option ℚ
  max : Option ℚ
deriving DecidableEq

/-- The all-defaults options record (`{}` in the source). -/
def SparklineOptions.default : SparklineOptions := ⟨none, none, none⟩

/-- `sparkline(data, options)` of the source.  `range = max - min || 1` is
the JS falsy-coalescing: `1` exactly when `max - min` is `0`. -/
def sparkline (data : List ℚ) (options : SparklineOptions) : List Char :=
  if data.length = 0 then []
  else
    let width := options.width.getD (data.length : Int)
    let mn := options.min.getD (listMin data)
    let mx := options.max.getD (listMax data)
    let range := if mx - mn = 0 then 1 else mx - mn
    let resampledData := resample data width
    resampledData.map (sparklineChar mn range)

/-- `HistogramOptions` with the source's destructuring defaults
(`width = 50`, `height = 8`, `showAxis = true`).  Width and height are
naturals: a negative width would make `"─".repeat(width)` throw in JS, so
only the non-negative range is modelled. -/
structure HistogramOptions where
  width : Nat
  height : Nat
  showAxis : Bool
  title : Option (List Char)
deriving DecidableEq

/-- The all-defaults `HistogramOptions` (`{}` in the source). -/
def HistogramOptions.default : HistogramOptions := ⟨50, 8, true, none⟩

/-- `histogram(data, options)` of the source.  The row loop runs `row` from
`height - 1` down to `0`; it is modelled as a map over `r < height` with
`row = height - 1 - r`.  With `height = 0` neither loop body runs, so the
JS division `0.5 / 0 = Infinity` inside `threshold` is never consumed and
the `ℚ` value `0` is equally unused. -/
def histogram (data : List ℚ) (options : HistogramOptions) : List (List Char) :=
  if data.length = 0 then []
  else
    let width := options.width
    let height := options.height
    let mn := listMin data
    let mx := listMax data
    let range := if mx - mn = 0 then 1 else mx - mn
    let resampledData := resample data (width : Int)
    let normalizedData := resampledData.map (fun v => (v - mn) / range)
    let titleLines : List (List Char) :=
      match options.title with
      | some t => [padStart (t.take width) (width / 2 + t.length / 2), []]
      | none => []
    let rows := (List.range height).map (fun r =>
      let row := height - 1 - r
      let threshold : ℚ := ((row : ℚ) + 1 / 2) / (height : ℚ)
      let axisPart : List Char :=
        if options.showAxis then
          if row = height - 1 then padStart (formatCompact mx) 6 ++ [' ', '│']
          else if row = 0 then padStart (formatCompact mn) 6 ++ [' ', '│']
          else (List.replicate 7 ' ') ++ ['│']
        else []
      axisPart ++ (List.range width).map (fun col =>
        let value := normalizedData.getD col 0
        if threshold ≤ value then
          let blockIndex : Int := min ⌊(value - threshold) * (height : ℚ) *
            (SPARKLINE_CHARS.length : ℚ)⌋ ((SPARKLINE_CHARS.length : Int) - 1)
          SPARKLINE_CHARS.getD (max 0 blockIndex).toNat '█'
        else if threshold - 1 / (height : ℚ) ≤ value then
          let partialHeight := (value - (threshold - 1 / (height : ℚ))) * (height : ℚ)
          let blockIndex : Int := ⌊partialHeight * (SPARKLINE_CHARS.length : ℚ)⌋
          SPARKLINE_CHARS.getD (max 0 blockIndex).toNat ' '
        else ' '))
    let axisLine : List (List Char) :=
      if options.showAxis then
        [(List.replicate 7 ' ') ++ '└' :: List.replicate width '─']
      else []
    titleLines ++ rows ++ axisLine

/-- `AreaChartOptions` with the source's destructuring defaults
(`width = 60`, `height = 10`, `showLabels = true`); the declared `fill`
option is never destructured by the source, hence not modelled. -/
structure AreaChartOptions where
  width : Nat
  height : Nat
  showLabels : Bool
deriving DecidableEq

/-- The all-defaults `AreaChartOptions` (`{}` in the source). -/
def AreaChartOptions.default : AreaChartOptions := ⟨60, 10, true⟩

/-- `areaChart(data, options)` of the source.  The row loop runs `row` from
`height` down to `1`, modelled as a map over `r < height` with
`row = height - r`. -/
def areaChart (data : List ℚ) (options : AreaChartOptions) : List (List Char) :=
  if data.length = 0 then []
  else
    let width := options.width
    let height := options.height
    let mn := listMin data
    let mx := listMax data
    let range := if mx - mn = 0 then 1 else mx - mn
    let resampledData := resample data (width : Int)
    let normalizedData := resampledData.map (fun v => (v - mn) / range * (height : ℚ))
    let rows := (List.range height).map (fun r =>
      let row := height - r
      let labelPart : List Char :=
        if options.showLabels then
          padStart (if row = height then formatCompact mx
            else if row = 1 then formatCompact mn else []) 6 ++ [' ', '│', ' ']
        else []
      labelPart ++ (List.range width).map (fun col =>
        let value := normalizedData.getD col 0
        if (row : ℚ) ≤ value then '█'
        else if (row : ℚ) - 1 ≤ value then
          let part := value - (⌊value⌋ : ℚ)
          let blockIndex : Int := ⌊part * (SPARKLINE_CHARS.length : ℚ)⌋
          SPARKLINE_CHARS.getD blockIndex.toNat '▁'
        else ' '))
    let labelLine : List (List Char) :=
      if options.showLabels then
        [(List.replicate 7 ' ') ++ '└' :: List.replicate (width + 1) '─']
      else []
    rows ++ labelLine

/-- `BarChartItem` of the source (`color` is never read by `barChart`). -/
structure BarChartItem where
  label : List Char
  value : ℚ
  color : Option (List Char)
deriving DecidableEq

/-- `BarChartOptions` with the source's destructuring defaults.  The source's
default `valueFormatter` is `(v) => v.toLocaleString()`, which is
locale-dependent; the model therefore carries the formatter as an explicit
function and `BarChartOptions.default` fixes the en-US integer grouping the
repository's environment produces (see `toLocaleStringEnUS`). -/
structure BarChartOptions where
  width : Nat
  showValue : Bool
  maxLabelWidth : Nat
  valueFormatter : ℚ → List Char

/-- Comma-group a reversed digit list in blocks of three (helper for
`toLocaleStringEnUS`). -/
def groupThousandsRev : List Char → List Char
  | d1 :: d2 :: d3 :: d4 :: rest => d1 :: d2 :: d3 :: ',' :: groupThousandsRev (d4 :: rest)
  | l => l

/-- `Number.prototype.toLocaleString()` under the en-US default locale:
integer part grouped by thousands with commas; the fractional part is
rounded to at most 3 digits with trailing zeros stripped (ECMA-402 default
`maximumFractionDigits = 3`). -/
def toLocaleStringEnUS (v : ℚ) : List Char :=
  let sign : List Char := if v < 0 then ['-'] else []
  let a := |v|
  let ip : Nat := (⌊a⌋).toNat
  let fp : Nat := (round ((a - (⌊a⌋ : ℚ)) * 1000)).toNat
  let ipStr := (groupThousandsRev ((Nat.repr ip).toList.reverse)).reverse
  if fp = 0 then sign ++ ipStr
  else
    let fracStr := (padStart (Nat.repr fp).toList 3).map (fun c => if c = ' ' then '0' else c)
    sign ++ ipStr ++ '.' :: (fracStr.reverse.dropWhile (fun c => c = '0')).reverse

/-- The all-defaults `BarChartOptions` (`{}` in the source). -/
def BarChartOptions.default : BarChartOptions := ⟨30, true, 15, toLocaleStringEnUS⟩

/-- `barChart(items, options)` of the source.  `barWidth` is already an
integer (`Math.round`), so `fullBlocks = Math.floor(barWidth)` equals it and
`partialBlock = Math.round((barWidth - fullBlocks) * 8)` is always `0`;
the model keeps every step of the source computation.  `Int.toNat` in the
`repeat` counts mirrors JS `String.repeat`, which is only defined for
non-negative counts (negative counts throw, unreachable for the
non-negative values the engine receives). -/
def barChart (items : List BarChartItem) (options : BarChartOptions) : List (List Char) :=
  if items.length = 0 then []
  else
    let maxValue : ℚ := (items.map (fun i => i.value)).foldl max 1
    items.map (fun item =>
      let label := padEnd (item.label.take options.maxLabelWidth) options.maxLabelWidth
      let barWidth : ℚ := ((round ((item.value / maxValue) * (options.width : ℚ))) : Int)
      let fullBlocks : Int := ⌊barWidth⌋
      let partialBlock : Int := round ((barWidth - (fullBlocks : ℚ)) * 8)
      let bar0 := List.replicate fullBlocks.toNat BAR_FULL
      let bar1 :=
        if 0 < partialBlock ∧ fullBlocks < (options.width : Int) then
          bar0 ++ BAR_PARTIAL.getD partialBlock.toNat []
        else bar0
      let bar := padEnd bar1 options.width
      let valueStr : List Char :=
        if options.showValue then ' ' :: options.valueFormatter item.value else []
      label ++ ' ' :: bar ++ valueStr)

/-- Template-literal rendering `${n}` of an integer. -/
def intRepr (n : Int) : List Char :=
  if n < 0 then '-' :: (Nat.repr (-n).toNat).toList else (Nat.repr n.toNat).toList

/-- `ProgressBarOptions` with the source's destructuring defaults. -/
structure ProgressBarOptions where
  width : Nat
  showPercentage : Bool
  filled : Char
  empty : Char
deriving DecidableEq

/-- The all-defaults `ProgressBarOptions` (`{}` in the source). -/
def ProgressBarOptions.default : ProgressBarOptions := ⟨20, true, '█', '░'⟩

/-- `progressBar(value, max, options)` of the source.  `emptyWidth` is
`width - filledWidth`, non-negative because the ratio is clamped to `[0, 1]`.
A zero `max` (JS: `NaN` ratio) is outside the model, which uses `ℚ` where
`value / 0 = 0`; the engine always passes positive maxima. -/
def progressBar (value mx : ℚ) (options : ProgressBarOptions) : List Char :=
  let percentage : ℚ := min (max (value / mx) 0) 1
  let filledWidth : Int := round (percentage * (options.width : ℚ))
  let emptyWidth : Int := (options.width : Int) - filledWidth
  let bar := List.replicate filledWidth.toNat options.filled ++
    List.replicate emptyWidth.toNat options.empty
  if options.showPercentage then
    bar ++ ' ' :: intRepr (round (percentage * 100)) ++ ['%']
  else bar

/-- A JS number that may be `NaN` or an infinity: the image of rational
inputs under the one JS division the donut chart performs
(`item.value / total`), which leaves `ℚ` exactly when the divisor is `0`. -/
inductive JSQ where
  | num : ℚ → JSQ
  | nan : JSQ
  | posInf : JSQ
  | negInf : JSQ
deriving DecidableEq

/-- JS division on rational operands: `0 / 0 = NaN`, `±x / 0 = ±Infinity`. -/
def jsDivQ (a b : ℚ) : JSQ :=
  if b = 0 then
    if a = 0 then JSQ.nan else if 0 < a then JSQ.posInf else JSQ.negInf
  else JSQ.num (a / b)

/-- `${Math.round(p * 100)}` for a donut percentage: `Math.round` is
round-half-toward-`+∞` on numbers, maps `NaN` to `NaN` and infinities to
themselves; the template literal renders those as `"NaN"` /
`"±Infinity"`. -/
def roundPct : JSQ → List Char
  | JSQ.num q => intRepr (round (q * 100))
  | JSQ.nan => ['N', 'a', 'N']
  | JSQ.posInf => ['I', 'n', 'f', 'i', 'n', 'i', 't', 'y']
  | JSQ.negInf => '-' :: ['I', 'n', 'f', 'i', 'n', 'i', 't', 'y']

/-- `DonutChartItem` of the source. -/
structure DonutChartItem where
  label : List Char
  value : ℚ
  char : Option Char
deriving DecidableEq

/-- The fallback glyph array `chars` of `donutChart`. -/
def donutChars : List Char := ['█', '▓', '▒', '░', '▪', '▫', '◆', '◇']

/-- A `segments` entry of `donutChart`. -/
structure DonutSegment where
  char : Char
  percentage : JSQ
  label : List Char
deriving DecidableEq

/-- The `segments` construction of `donutChart` (source lines 370–380):
`total` is `reduce((acc, item) => acc + item.value, 0)` and each percentage
is the JS division `item.value / total`. -/
def donutSegments (items : List DonutChartItem) : List DonutSegment :=
  let total : ℚ := (items.map (fun i => i.value)).foldl (· + ·) 0
  items.enum.map (fun p =>
    ⟨p.2.char.getD (donutChars.getD (p.1 % donutChars.length) '█'),
     jsDivQ p.2.value total, p.2.label⟩)

/-- The legend block of `donutChart` (source lines 417–423, reached when
`showLegend` holds): a blank line, then per segment
`"  ${char} ${label}: ${percentage}%"`.  The ring raster (lines 386–415) is
not modelled: it rasterizes `atan2`/`sqrt` polar coordinates, which are
transcendental, and none of its output feeds the legend lines. -/
def donutLegendLines (items : List DonutChartItem) : List (List Char) :=
  [] :: (donutSegments items).map (fun seg =>
    ' ' :: ' ' :: seg.char :: ' ' :: seg.label ++ ':' :: ' ' ::
      roundPct seg.percentage ++ ['%'])

/-- Cell alignments of the table renderer. -/
inductive Alignment where
  | left
  | right
  | center
deriving DecidableEq

/-- The inner `align` helper of `table` (source lines 442–453): truncate
when at least as long as the column, otherwise pad on the side (or sides)
the alignment dictates, with `floor(pad / 2)` leading and `ceil(pad / 2)`
trailing spaces for `center`. -/
def align (str : List Char) (width : Nat) (alignment : Alignment) : List Char :=
  let pad : Int := (width : Int) - (str.length : Int)
  if pad ≤ 0 then str.take width
  else
    match alignment with
    | Alignment.right => List.replicate pad.toNat ' ' ++ str
    | Alignment.center =>
        List.replicate (pad.toNat / 2) ' ' ++ str ++
          List.replicate ((pad.toNat + 1) / 2) ' '
    | Alignment.left => str ++ List.replicate pad.toNat ' '

/-- The default column widths of `table` (source lines 437–440):
`max(header length, max cell length in the column) + 2`.  JS
`Math.max(...)` of an empty spread is `-Infinity`; cell lengths are
naturals, so folding from `0` yields the same maximum for non-empty rows
and the same `max(h.length, ·)` for empty ones. -/
def tableWidths (rows : List (List (List Char))) (headers : List (List Char)) : List Nat :=
  headers.enum.map (fun p =>
    let maxDataWidth := (rows.map (fun row => (row.getD p.1 []).length)).foldl max 0
    max p.2.length maxDataWidth + 2)

/-- `alignments?.[i]` with the `align` default: `left` when the array is
absent or the index out of range. -/
def alignmentAt (alignments : Option (List Alignment)) (i : Nat) : Alignment :=
  (alignments.getD []).getD i Alignment.left

/-- `TableOptions` of the source. -/
structure TableOptions where
  headers : List (List Char)
  columnWidths : Option (List Nat)
  alignments : Option (List Alignment)

/-- `table(rows, options)` of the source: top border, header row, header
separator, one line per data row, bottom border, with the box-drawing
glyph set `BOX_LIGHT`.  `widths[i]!` is modelled as `getD i 0`; the engine
always renders rows whose cell count matches `headers`, keeping the index
in range. -/
def table (rows : List (List (List Char))) (options : TableOptions) : List (List Char) :=
  let widths := options.columnWidths.getD (tableWidths rows options.headers)
  let topBorder := '┌' :: (List.intercalate ['┬'] (widths.map (fun w => List.replicate w '─'))) ++ ['┐']
  let headerRow := '│' :: (List.intercalate ['│'] (options.headers.enum.map (fun p =>
    align p.2 (widths.getD p.1 0) (alignmentAt options.alignments p.1)))) ++ ['│']
  let headerSep := '├' :: (List.intercalate ['┼'] (widths.map (fun w => List.replicate w '─'))) ++ ['┤']
  let dataRows := rows.map (fun row =>
    '│' :: (List.intercalate ['│'] (row.enum.map (fun p =>
      align p.2 (widths.getD p.1 0) (alignmentAt options.alignments p.1)))) ++ ['│'])
  let bottomBorder := '└' :: (List.intercalate ['┴'] (widths.map (fun w => List.replicate w '─'))) ++ ['┘']
  topBorder :: headerRow :: headerSep :: dataRows ++ [bottomBorder]

/-! ### Helper lemmas -/

theorem foldl_min_le_init (xs : List ℚ) (a : ℚ) : xs.foldl min a ≤ a := by
  induction xs generalizing a with
  | nil => exact le_refl a
  | cons x xs ih =>
    exact le_trans (ih (min a x)) (min_le_left a x)

theorem foldl_min_le_mem (xs : List ℚ) (a x : ℚ) (hx : x ∈ xs) : xs.foldl min a ≤ x := by
  induction xs generalizing a with
  | nil => cases hx
  | cons y ys ih =>
    rcases List.mem_cons.mp hx with h | h
    · subst h
      exact le_trans (foldl_min_le_init ys (min a x)) (min_le_right a x)
    · exact ih (min a y) h

theorem init_le_foldl_max (xs : List ℚ) (a : ℚ) : a ≤ xs.foldl max a := by
  induction xs generalizing a with
  | nil => exact le_refl a
  | cons x xs ih =>
    exact le_trans (le_max_left a x) (ih (max a x))

theorem mem_le_foldl_max (xs : List ℚ) (a x : ℚ) (hx : x ∈ xs) : x ≤ xs.foldl max a := by
  induction xs generalizing a with
  | nil => cases hx
  | cons y ys ih =>
    rcases List.mem_cons.mp hx with h | h
    · subst h
      exact le_trans (le_max_right a x) (init_le_foldl_max ys (max a x))
    · exact ih (max a y) h

theorem listMin_le (l : List ℚ) (x : ℚ) (hx : x ∈ l) : listMin l ≤ x := by
  cases l with
  | nil => cases hx
  | cons y ys =>
    rcases List.mem_cons.mp hx with h | h
    · subst h; exact foldl_min_le_init ys x
    · exact foldl_min_le_mem ys y x h

theorem le_listMax (l : List ℚ) (x : ℚ) (hx : x ∈ l) : x ≤ listMax l := by
  cases l with
  | nil => cases hx
  | cons y ys =>
    rcases List.mem_cons.mp hx with h | h
    · subst h; exact init_le_foldl_max ys x
    · exact mem_le_foldl_max ys y x h

theorem getD_mem {α : Type} {l : List α} {k : Nat} (h : k < l.length) (d : α) :
    l.getD k d ∈ l := by
  induction l generalizing k with
  | nil => cases h
  | cons x xs ih =>
    cases k with
    | zero => simp
    | succ k =>
      have hk : k < xs.length := Nat.lt_of_succ_lt_succ h
      simpa using Or.inr (ih hk)

/-! ### C3: resample identity -/

/-- C3: for every numeric sequence `s`, `resample(s, len(s))` returns `s`
itself (element-wise equality is definitional equality of the list). -/
theorem resample_identity (data : List ℚ) : resample data (data.length : Int) = data := by
  unfold resample
  by_cases h : data.length = 0
  · rw [if_pos h]
    exact (List.length_eq_zero.mp h).symm
  · rw [if_neg h, if_pos rfl]

/-! ### C1: resample length -/

/-- C1 counterexample: `resample([], 1)` is the empty sequence, whose length
is 0, not 1 — the claimed length law fails on the empty input sequence. -/
theorem resample_empty_target_one : (resample ([] : List ℚ) 1).length ≠ 1 := by decide

/-- C1 (amended): for every NON-empty sequence `s` and `n ≥ 0`,
`resample(s, n)` has length exactly `n` (with `n = 0` giving the empty
sequence); the empty input sequence instead yields the empty sequence for
every target length. -/
theorem resample_length (data : List ℚ) (n : Int) :
    (data ≠ [] → 0 ≤ n → ((resample data n).length : Int) = n) ∧
      resample ([] : List ℚ) n = [] := by
  constructor
  · intro hne h0
    have hlen : ¬data.length = 0 := fun h => hne (List.length_eq_zero.mp h)
    unfold resample
    rw [if_neg hlen]
    by_cases h1 : (data.length : Int) = n
    · rw [if_pos h1]
      exact h1
    · rw [if_neg h1]
      by_cases h2 : (data.length : Int) < n
      · rw [if_pos h2]
        simp only [List.length_map, List.length_range]
        exact Int.toNat_of_nonneg h0
      · rw [if_neg h2]
        simp only [List.length_map, List.length_range]
        exact Int.toNat_of_nonneg h0
  · rfl

/-- C1 witness: a concrete non-empty sequence and target. -/
theorem resample_length_witness :
    ((resample ([0, 1] : List ℚ) 5).length : Int) = 5 ∧
      resample ([] : List ℚ) 5 = [] :=
  ⟨(resample_length [0, 1] 5).1 (by decide) (by decide), (resample_length [0, 1] 5).2⟩

/-! ### C2: quantize bounds -/

theorem sparklineChar_mem (mn range value : ℚ) :
    sparklineChar mn range value ∈ SPARKLINE_CHARS := by
  unfold sparklineChar
  set idx : Int := min ⌊(value - mn) / range * (SPARKLINE_CHARS.length : ℚ)⌋
    ((SPARKLINE_CHARS.length : Int) - 1) with hidx
  have h7 : max 0 idx ≤ 7 := by
    apply max_le
    · norm_num
    · calc idx ≤ (SPARKLINE_CHARS.length : Int) - 1 := min_le_right _ _
        _ = 7 := by decide
  have hlt : (max 0 idx).toNat < SPARKLINE_CHARS.length := by
    have h8 : SPARKLINE_CHARS.length = 8 := by decide
    omega
  exact getD_mem hlt '▁'

/-- C2: the quantized level index of `sparkline` —
`max(0, min(floor(((value - min) / range) * 8), 7))` with
`range = (max - min) || 1` — always lies in `[0, 7]`, stays inside the
8-glyph array, and consequently every character of any sparkline output is
one of the 8 glyphs. -/
theorem sparkline_quantize_bounds :
    (∀ value mn mx : ℚ,
      0 ≤ max 0 (min ⌊(value - mn) / (if mx - mn = 0 then 1 else mx - mn) *
          (SPARKLINE_CHARS.length : ℚ)⌋ ((SPARKLINE_CHARS.length : Int) - 1)) ∧
      max 0 (min ⌊(value - mn) / (if mx - mn = 0 then 1 else mx - mn) *
          (SPARKLINE_CHARS.length : ℚ)⌋ ((SPARKLINE_CHARS.length : Int) - 1)) ≤ 7 ∧
      (max 0 (min ⌊(value - mn) / (if mx - mn = 0 then 1 else mx - mn) *
          (SPARKLINE_CHARS.length : ℚ)⌋ ((SPARKLINE_CHARS.length : Int) - 1))).toNat <
        SPARKLINE_CHARS.length) ∧
    (∀ (data : List ℚ) (options : SparklineOptions) (c : Char),
      c ∈ sparkline data options → c ∈ SPARKLINE_CHARS) := by
  constructor
  · intro value mn mx
    refine ⟨le_max_left 0 _, ?_, ?_⟩
    · apply max_le
      · norm_num
      · calc min ⌊(value - mn) / (if mx - mn = 0 then 1 else mx - mn) *
              (SPARKLINE_CHARS.length : ℚ)⌋ ((SPARKLINE_CHARS.length : Int) - 1)
            ≤ (SPARKLINE_CHARS.length : Int) - 1 := min_le_right _ _
          _ = 7 := by decide
    · have h7 : min ⌊(value - mn) / (if mx - mn = 0 then 1 else mx - mn) *
          (SPARKLINE_CHARS.length : ℚ)⌋ ((SPARKLINE_CHARS.length : Int) - 1) ≤ 7 := by
        calc min ⌊(value - mn) / (if mx - mn = 0 then 1 else mx - mn) *
              (SPARKLINE_CHARS.length : ℚ)⌋ ((SPARKLINE_CHARS.length : Int) - 1)
            ≤ (SPARKLINE_CHARS.length : Int) - 1 := min_le_right _ _
          _ = 7 := by decide
      have h8 : SPARKLINE_CHARS.length = 8 := by decide
      omega
  · intro data options c hc
    unfold sparkline at hc
    by_cases h : data.length = 0
    · rw [if_pos h] at hc
      cases hc
    · rw [if_neg h] at hc
      simp only at hc
      obtain ⟨v, _, rfl⟩ := List.mem_map.mp hc
      exact sparklineChar_mem _ _ v

/-- C2 witness: concrete quantization input and a concrete sparkline
character. -/
theorem sparkline_quantize_bounds_witness :
    (0 : Int) ≤ max 0 (min ⌊((5 : ℚ) - 0) / (if (10 : ℚ) - 0 = 0 then 1 else 10 - 0) *
        (SPARKLINE_CHARS.length : ℚ)⌋ ((SPARKLINE_CHARS.length : Int) - 1)) ∧
      '▃' ∈ SPARKLINE_CHARS :=
  ⟨(sparkline_quantize_bounds.1 5 0 10).1,
   sparkline_quantize_bounds.2 [0, 5, 10] ⟨some 5, none, none⟩ '▃' (by decide)⟩

/-! ### C4: upsampling stays within the source extremes -/

theorem foldl_max_le (xs : List ℚ) (a hi : ℚ) (ha : a ≤ hi) (h : ∀ x ∈ xs, x ≤ hi) :
    xs.foldl max a ≤ hi := by
  induction xs generalizing a with
  | nil => exact ha
  | cons y ys ih =>
    exact ih (max a y) (max_le ha (h y (List.mem_cons_self y ys))) fun x hx =>
      h x (List.mem_cons_of_mem y hx)

theorem le_foldl_min (xs : List ℚ) (a lo : ℚ) (ha : lo ≤ a) (h : ∀ x ∈ xs, lo ≤ x) :
    lo ≤ xs.foldl min a := by
  induction xs generalizing a with
  | nil => exact ha
  | cons y ys ih =>
    exact ih (min a y) (le_min ha (h y (List.mem_cons_self y ys))) fun x hx =>
      h x (List.mem_cons_of_mem y hx)

theorem listMax_le (l : List ℚ) (hi : ℚ) (hne : l ≠ []) (h : ∀ x ∈ l, x ≤ hi) :
    listMax l ≤ hi := by
  cases l with
  | nil => exact absurd rfl hne
  | cons y ys =>
    exact foldl_max_le ys y hi (h y (List.mem_cons_self y ys)) fun x hx =>
      h x (List.mem_cons_of_mem y hx)

theorem le_listMin (l : List ℚ) (lo : ℚ) (hne : l ≠ []) (h : ∀ x ∈ l, lo ≤ x) :
    lo ≤ listMin l := by
  cases l with
  | nil => exact absurd rfl hne
  | cons y ys =>
    exact le_foldl_min ys y lo (h y (List.mem_cons_self y ys)) fun x hx =>
      h x (List.mem_cons_of_mem y hx)

/-- Core convexity argument for the upsample branch: with a non-empty source
shorter than the target, every output sample is a convex combination of two
source samples, hence stays inside any interval containing the source. -/
theorem resample_upsample_mem_bounds (data : List ℚ) (n : Int) (lo hi : ℚ)
    (hne : data ≠ []) (hn : (data.length : Int) < n)
    (hbound : ∀ y ∈ data, lo ≤ y ∧ y ≤ hi) :
    ∀ x ∈ resample data n, lo ≤ x ∧ x ≤ hi := by
  intro x hx
  have hlen : ¬data.length = 0 := fun h => hne (List.length_eq_zero.mp h)
  have hL1 : 1 ≤ data.length := Nat.one_le_iff_ne_zero.mpr hlen
  unfold resample at hx
  rw [if_neg hlen, if_neg (ne_of_lt hn), if_pos hn] at hx
  simp only [List.mem_map, List.mem_range] at hx
  obtain ⟨i, hi_lt, rfl⟩ := hx
  have hn2 : (2 : Int) ≤ n := by omega
  have hnq : (2 : ℚ) ≤ (n : ℚ) := by exact_mod_cast hn2
  have hLq : (1 : ℚ) ≤ (data.length : ℚ) := by exact_mod_cast hL1
  set L : ℚ := (data.length : ℚ) with hLdef
  set scale : ℚ := (L - 1) / ((n : ℚ) - 1) with hscale
  have hscale_nonneg : 0 ≤ scale := div_nonneg (by linarith) (by linarith)
  set pos : ℚ := (i : ℚ) * scale with hpos
  have hpos_nonneg : 0 ≤ pos := mul_nonneg (by positivity) hscale_nonneg
  have hi_le : (i : ℚ) ≤ (n : ℚ) - 1 := by
    have h1 : (i : Int) < n := by
      have h2 : i < n.toNat := hi_lt
      omega
    have h3 : (i : Int) ≤ n - 1 := by omega
    calc (i : ℚ) = ((i : Int) : ℚ) := by push_cast; ring
      _ ≤ ((n - 1 : Int) : ℚ) := by exact_mod_cast h3
      _ = (n : ℚ) - 1 := by push_cast; ring
  have hpos_le : pos ≤ L - 1 := by
    have h1 : pos ≤ ((n : ℚ) - 1) * scale :=
      mul_le_mul_of_nonneg_right hi_le hscale_nonneg
    have h2 : ((n : ℚ) - 1) * scale = L - 1 := by
      rw [hscale, mul_div_assoc']
      exact mul_div_cancel_left₀ _ (by linarith)
    linarith
  have hfloor0 : 0 ≤ ⌊pos⌋ := Int.floor_nonneg.mpr hpos_nonneg
  have hceil_le : ⌈pos⌉ ≤ (data.length : Int) - 1 := by
    apply Int.ceil_le.mpr
    push_cast
    exact hpos_le
  have hfl : ⌊pos⌋ ≤ ⌈pos⌉ := Int.floor_le_ceil pos
  have hlow_lt : ⌊pos⌋.toNat < data.length := by omega
  have hup_lt : ⌈pos⌉.toNat < data.length := by omega
  have hlower := hbound _ (getD_mem hlow_lt 0)
  have hupper := hbound _ (getD_mem hup_lt 0)
  by_cases hcase : ⌊pos⌋ = ⌈pos⌉
  · rw [if_pos hcase]
    exact hlower
  · rw [if_neg hcase]
    set w : ℚ := pos - (⌊pos⌋ : ℚ) with hw
    have hw0 : 0 ≤ w := by
      have := Int.floor_le pos
      linarith
    have hw1 : w ≤ 1 := by
      have := Int.lt_floor_add_one pos
      push_cast at this
      linarith
    set a : ℚ := data.getD ⌊pos⌋.toNat 0
    set b : ℚ := data.getD ⌈pos⌉.toNat 0
    obtain ⟨hal, hah⟩ := hlower
    obtain ⟨hbl, hbh⟩ := hupper
    constructor
    · have h1 : lo * (1 - w) ≤ a * (1 - w) :=
        mul_le_mul_of_nonneg_right hal (by linarith)
      have h2 : lo * w ≤ b * w := mul_le_mul_of_nonneg_right hbl hw0
      have h3 : lo * (1 - w) + lo * w = lo := by ring
      linarith
    · have h1 : a * (1 - w) ≤ hi * (1 - w) :=
        mul_le_mul_of_nonneg_right hah (by linarith)
      have h2 : b * w ≤ hi * w := mul_le_mul_of_nonneg_right hbh hw0
      have h3 : hi * (1 - w) + hi * w = hi := by ring
      linarith

/-- C4: for a non-empty sequence and `n > len(s)` (upsampling by linear
interpolation), every output sample lies within `[min(s), max(s)]`; hence
the maximum of the result is at most `max(s)` and its minimum at least
`min(s)`. -/
theorem resample_upsample_extremes (data : List ℚ) (n : Int)
    (hne : data ≠ []) (hn : (data.length : Int) < n) :
    (∀ x ∈ resample data n, listMin data ≤ x ∧ x ≤ listMax data) ∧
      listMax (resample data n) ≤ listMax data ∧
      listMin data ≤ listMin (resample data n) := by
  have hmem : ∀ x ∈ resample data n, listMin data ≤ x ∧ x ≤ listMax data :=
    resample_upsample_mem_bounds data n (listMin data) (listMax data) hne hn
      (fun y hy => ⟨listMin_le data y hy, le_listMax data y hy⟩)
  have hlen : ((resample data n).length : Int) = n :=
    (resample_length data n).1 hne (by omega)
  have hres_ne : resample data n ≠ [] := by
    intro h
    rw [h] at hlen
    simp at hlen
    omega
  exact ⟨hmem,
    listMax_le _ _ hres_ne (fun x hx => (hmem x hx).2),
    le_listMin _ _ hres_ne (fun x hx => (hmem x hx).1)⟩

/-- C4 witness: a concrete upsample. -/
theorem resample_upsample_extremes_witness :
    (∀ x ∈ resample ([0, 10] : List ℚ) 4, listMin [0, 10] ≤ x ∧ x ≤ listMax [0, 10]) ∧
      listMax (resample ([0, 10] : List ℚ) 4) ≤ listMax [0, 10] ∧
      listMin ([0, 10] : List ℚ) ≤ listMin (resample ([0, 10] : List ℚ) 4) :=
  resample_upsample_extremes [0, 10] 4 (by decide) (by decide)

/-! ### C7: degenerate range and flat series -/

theorem foldl_min_replicate (m : Nat) (c : ℚ) : (List.replicate m c).foldl min c = c := by
  induction m with
  | zero => rfl
  | succ m ih => rw [List.replicate_succ, List.foldl_cons, min_self]; exact ih

theorem foldl_max_replicate (m : Nat) (c : ℚ) : (List.replicate m c).foldl max c = c := by
  induction m with
  | zero => rfl
  | succ m ih => rw [List.replicate_succ, List.foldl_cons, max_self]; exact ih

theorem listMin_replicate (n : Nat) (c : ℚ) (h : 0 < n) :
    listMin (List.replicate n c) = c := by
  obtain ⟨m, rfl⟩ : ∃ m, n = m + 1 := ⟨n - 1, by omega⟩
  rw [List.replicate_succ]
  exact foldl_min_replicate m c

theorem listMax_replicate (n : Nat) (c : ℚ) (h : 0 < n) :
    listMax (List.replicate n c) = c := by
  obtain ⟨m, rfl⟩ : ∃ m, n = m + 1 := ⟨n - 1, by omega⟩
  rw [List.replicate_succ]
  exact foldl_max_replicate m c

theorem sparklineChar_self (c : ℚ) : sparklineChar c 1 c = '▁' := by
  unfold sparklineChar
  norm_num
  decide

/-- C7: when the quantization range is degenerate (`max - min = 0`) the
source substitutes `1`, and a constant non-empty series rendered at its own
length comes out as the lowest glyph repeated, rather than an error. -/
theorem sparkline_flat (c : ℚ) (n : Nat) (h : 0 < n) :
    sparkline (List.replicate n c) ⟨some (n : Int), none, none⟩ =
      List.replicate n '▁' := by
  have hres : resample (List.replicate n c) (n : Int) = List.replicate n c := by
    have h2 := resample_identity (List.replicate n c)
    rwa [List.length_replicate] at h2
  unfold sparkline
  rw [List.length_replicate, if_neg (by omega : ¬n = 0)]
  simp only [Option.getD_none, Option.getD_some, listMin_replicate n c h,
    listMax_replicate n c h, sub_self, eq_self_iff_true, if_true, hres,
    List.map_replicate, sparklineChar_self]

/-- C7 witness: a length-3 constant series. -/
theorem sparkline_flat_witness :
    sparkline (List.replicate 3 (5 : ℚ)) ⟨some ((3 : Nat) : Int), none, none⟩ =
      List.replicate 3 '▁' :=
  sparkline_flat 5 3 (by decide)

/-! ### C5: zero width / zero height -/

/-- C5 counterexample: a histogram of the non-empty series `[1]` with
`width = 0`, `height = 1` and the default `showAxis = true` is NOT an empty
sequence of lines — it still emits the axis scaffolding. -/
theorem histogram_zero_width_not_empty :
    histogram [1] ⟨0, 1, true, none⟩ ≠ [] ∧
      histogram [1] ⟨0, 1, true, none⟩ =
        [[' ', ' ', ' ', ' ', ' ', '1', ' ', '│'],
         [' ', ' ', ' ', ' ', ' ', ' ', ' ', '└']] := by
  constructor
  · decide
  · decide

/-- C5 (amended): `sparkline` does return the empty string whenever the
requested width is `≤ 0`, but `histogram` and `areaChart` with `width = 0`
(or `height = 0`) and the default axis/label flags return `height + 1`
scaffolding lines — a non-empty sequence; only the empty input series gives
them an empty result. -/
theorem degenerate_dimensions (data : List ℚ) (h : Nat) (hne : data ≠ []) :
    (∀ w : Int, w ≤ 0 → sparkline data ⟨some w, none, none⟩ = []) ∧
      (histogram data ⟨0, h, true, none⟩).length = h + 1 ∧
      (areaChart data ⟨0, h, true⟩).length = h + 1 := by
  have hlen : ¬data.length = 0 := fun h0 => hne (List.length_eq_zero.mp h0)
  have hL1 : 1 ≤ data.length := Nat.one_le_iff_ne_zero.mpr hlen
  refine ⟨?_, ?_, ?_⟩
  · intro w hw
    have hres : resample data w = [] := by
      unfold resample
      rw [if_neg hlen, if_neg (by omega : ¬(data.length : Int) = w),
        if_neg (by omega : ¬(data.length : Int) < w)]
      simp [Int.toNat_of_nonpos hw]
    unfold sparkline
    rw [if_neg hlen]
    simp only [Option.getD_some, hres, List.map_nil]
  · unfold histogram
    rw [if_neg hlen]
    simp [List.length_append, List.length_map, List.length_range]
  · unfold areaChart
    rw [if_neg hlen]
    simp [List.length_append, List.length_map, List.length_range]

/-- C5 witness: the series `[1]` with `height = 1`. -/
theorem degenerate_dimensions_witness :
    (∀ w : Int, w ≤ 0 → sparkline [1] ⟨some w, none, none⟩ = []) ∧
      (histogram [1] ⟨0, 1, true, none⟩).length = 1 + 1 ∧
      (areaChart [1] ⟨0, 1, true⟩).length = 1 + 1 :=
  degenerate_dimensions [1] 1 (by decide)

/-! ### C9: concrete formatter values -/

/-- C9: the formatters produce exactly the five spec values:
`formatCompact(1500) = "1.5K"`, `formatCompact(999) = "999"`,
`formatBytes(1536) = "1.5 KB"`, `formatDuration(750) = "750ms"` and
`formatDuration(65000) = "1.1m"`. -/
theorem formatter_concrete_values :
    formatCompact 1500 = ['1', '.', '5', 'K'] ∧
      formatCompact 999 = ['9', '9', '9'] ∧
      formatBytes 1536 = ['1', '.', '5', ' ', 'K', 'B'] ∧
      formatDuration 750 = ['7', '5', '0', 'm', 's'] ∧
      formatDuration 65000 = ['1', '.', '1', 'm'] := by
  refine ⟨?_, ?_, ?_, ?_, ?_⟩ <;> decide

/-! ### C6: zero-total donut chart -/

/-- C6: evaluating the donut legend at the failing input — a single category
with value `0`, so the category total is `0` — shows that the source DOES
divide by the zero total: `0 / 0` is JS `NaN`, which propagates to a legend
line reading `"  █ a: NaN%"` instead of the `0%` share the specification
promises. -/
theorem donut_zero_total_legend_nan :
    donutLegendLines [⟨['a'], 0, none⟩] =
        [[], [' ', ' ', '█', ' ', 'a', ':', ' ', 'N', 'a', 'N', '%']] ∧
      donutLegendLines [⟨['a'], 0, none⟩] ≠
        [[], [' ', ' ', '█', ' ', 'a', ':', ' ', '0', '%']] := by
  constructor
  · decide
  · decide

/-! ### C8: table column widths -/

theorem align_length (s : List Char) (w : Nat) (a : Alignment) :
    (align s w a).length = w := by
  simp only [align]
  split
  · next h =>
    rw [List.length_take]
    omega
  · next h =>
    cases a <;>
      simp only [List.length_append, List.length_replicate, List.length_cons] <;>
      omega

theorem length_intercalate_single {α : Type} (s : α) : ∀ xs : List (List α),
    (List.intercalate [s] xs).length = (xs.map List.length).sum + (xs.length - 1)
  | [] => by simp [List.intercalate]
  | [a] => by simp [List.intercalate]
  | a :: b :: t => by
    have ih := length_intercalate_single s (b :: t)
    have hstep : List.intercalate [s] (a :: b :: t) =
        a ++ s :: List.intercalate [s] (b :: t) := by
      simp [List.intercalate, List.intersperse]
    rw [hstep]
    simp only [List.length_append, List.length_cons, List.map_cons, List.sum_cons,
      List.length_cons] at ih ⊢
    omega

theorem sum_getD_range (l : List Nat) :
    ((List.range l.length).map (fun i => l.getD i 0)).sum = l.sum := by
  induction l with
  | nil => rfl
  | cons a t ih =>
    rw [List.length_cons, List.range_succ_eq_map, List.map_cons, List.map_map]
    simp only [List.getD_cons_zero, Function.comp_def, List.getD_cons_succ, List.sum_cons]
    rw [ih]

theorem tableWidths_length (rows : List (List (List Char))) (headers : List (List Char)) :
    (tableWidths rows headers).length = headers.length := by
  simp [tableWidths]

theorem cells_length_sum {β : Type} (xs : List β) (widths : List Nat)
    (hlen : xs.length = widths.length) (cell : Nat → β → List Char)
    (hcell : ∀ i b, (cell i b).length = widths.getD i 0) :
    ((xs.enum.map (fun p => cell p.1 p.2)).map List.length).sum = widths.sum := by
  rw [List.map_map]
  have h1 : xs.enum.map (List.length ∘ fun p => cell p.1 p.2) =
      xs.enum.map (fun p => widths.getD p.1 0) :=
    List.map_congr_left (fun p _ => hcell p.1 p.2)
  have h2 : xs.enum.map (fun p => widths.getD p.1 0) =
      (xs.enum.map Prod.fst).map (fun i => widths.getD i 0) := by
    simp only [List.map_map, Function.comp_def]
  rw [h1, h2, List.enum_map_fst, hlen]
  exact sum_getD_range widths

theorem row_line_length {β : Type} (xs : List β) (widths : List Nat)
    (hne : xs ≠ []) (hlen : xs.length = widths.length) (cell : Nat → β → List Char)
    (hcell : ∀ i b, (cell i b).length = widths.getD i 0) :
    ('│' :: List.intercalate ['│'] (xs.enum.map (fun p => cell p.1 p.2)) ++ ['│']).length =
      widths.sum + widths.length + 1 := by
  simp only [List.length_cons, List.length_append, List.length_singleton,
    List.length_nil]
  rw [length_intercalate_single, cells_length_sum xs widths hlen cell hcell]
  have h1 : 0 < xs.length := List.length_pos.mpr hne
  simp only [List.length_map, List.enum_length]
  omega

theorem border_line_length (widths : List Nat) (hne : widths ≠ []) (a b c : Char) :
    (a :: List.intercalate [c] (widths.map (fun w => List.replicate w '─')) ++ [b]).length =
      widths.sum + widths.length + 1 := by
  simp only [List.length_cons, List.length_append, List.length_singleton,
    List.length_nil]
  rw [length_intercalate_single, List.map_map]
  have h1 : widths.map (List.length ∘ fun w => List.replicate w '─') = widths.map id :=
    List.map_congr_left (fun w _ => List.length_replicate w '─')
  rw [h1, List.map_id]
  have h2 : 0 < widths.length := List.length_pos.mpr hne
  simp only [List.length_map]
  omega

/-- C8: every cell of a rendered table — header or data — is padded or
truncated to exactly its computed column width, so a given column occupies
the same character count in every output line, and (for rows with one cell
per header) every rendered line of the table has the same total length
`sum(widths) + columns + 1`. -/
theorem table_column_alignment (rows : List (List (List Char)))
    (headers : List (List Char)) (alignments : Option (List Alignment))
    (hh : headers ≠ [])
    (hrows : ∀ row ∈ rows, row.length = headers.length) :
    (∀ i, (align (headers.getD i []) ((tableWidths rows headers).getD i 0)
        (alignmentAt alignments i)).length = (tableWidths rows headers).getD i 0) ∧
      (∀ row ∈ rows, ∀ i,
        (align (row.getD i []) ((tableWidths rows headers).getD i 0)
          (alignmentAt alignments i)).length = (tableWidths rows headers).getD i 0) ∧
      (∀ line ∈ table rows ⟨headers, none, alignments⟩,
        line.length = (tableWidths rows headers).sum + headers.length + 1) := by
  have hwlen : (tableWidths rows headers).length = headers.length :=
    tableWidths_length rows headers
  have hwne : tableWidths rows headers ≠ [] := by
    intro h0
    rw [h0] at hwlen
    exact hh (List.length_eq_zero.mp hwlen.symm)
  refine ⟨fun i => align_length _ _ _, fun row _ i => align_length _ _ _, ?_⟩
  intro line hline
  simp only [table, Option.getD_none, List.mem_cons, List.mem_append,
    List.mem_map, List.mem_singleton] at hline
  rcases hline with (rfl | rfl | rfl | ⟨row, hrow, rfl⟩) | rfl | h0
  · rw [← hwlen]
    exact border_line_length _ hwne '┌' '┐' '┬'
  · rw [← hwlen]
    exact row_line_length headers _ hh hwlen.symm
      (fun i b => align (b : List Char) ((tableWidths rows headers).getD i 0)
        (alignmentAt alignments i))
      (fun i b => align_length _ _ _)
  · rw [← hwlen]
    exact border_line_length _ hwne '├' '┤' '┼'
  · rw [← hwlen]
    have hrlen : row.length = (tableWidths rows headers).length := by
      rw [hwlen]
      exact hrows row hrow
    have hrne : row ≠ [] := by
      intro h0
      rw [h0] at hrlen
      rw [← hrlen] at hwlen
      exact hh (List.length_eq_zero.mp hwlen.symm)
    exact row_line_length row _ hrne hrlen
      (fun i b => align b ((tableWidths rows headers).getD i 0)
        (alignmentAt alignments i))
      (fun i b => align_length _ _ _)
  · rw [← hwlen]
    exact border_line_length _ hwne '└' '┘' '┴'
  · exact absurd h0 (List.not_mem_nil line)

/-- C8 witness: the spec's concrete table scenario. -/
theorem table_column_alignment_witness :
    (∀ i, (align (([['X'], ['Y']] : List (List Char)).getD i [])
        ((tableWidths [[['a'], ['1']], [['b', 'b'], ['2', '2']]] [['X'], ['Y']]).getD i 0)
        (alignmentAt none i)).length =
      (tableWidths [[['a'], ['1']], [['b', 'b'], ['2', '2']]] [['X'], ['Y']]).getD i 0) ∧
      (∀ row ∈ ([[['a'], ['1']], [['b', 'b'], ['2', '2']]] : List (List (List Char))), ∀ i,
        (align (row.getD i [])
          ((tableWidths [[['a'], ['1']], [['b', 'b'], ['2', '2']]] [['X'], ['Y']]).getD i 0)
          (alignmentAt none i)).length =
        (tableWidths [[['a'], ['1']], [['b', 'b'], ['2', '2']]] [['X'], ['Y']]).getD i 0) ∧
      (∀ line ∈ table [[['a'], ['1']], [['b', 'b'], ['2', '2']]] ⟨[['X'], ['Y']], none, none⟩,
        line.length =
          (tableWidths [[['a'], ['1']], [['b', 'b'], ['2', '2']]] [['X'], ['Y']]).sum +
            ([['X'], ['Y']] : List (List Char)).length + 1) :=
  table_column_alignment [[['a'], ['1']], [['b', 'b'], ['2', '2']]] [['X'], ['Y']] none
    (by decide) (by decide)

/-! ### C10: bar chart uses only full blocks -/

/-- The integer bar width of `barChart` (the source's
`Math.round((item.value / maxValue) * width)` with
`maxValue = Math.max(...values, 1)`). -/
def barW (items : List BarChartItem) (options : BarChartOptions)
    (item : BarChartItem) : Int :=
  round ((item.value / ((items.map (fun i => i.value)).foldl max 1)) *
    (options.width : ℚ))

theorem round_le_nat (r : ℚ) (w : Nat) (h : r ≤ (w : ℚ)) : round r ≤ (w : Int) := by
  rw [round_eq]
  have h2 : r + 1 / 2 ≤ (w : ℚ) + 1 / 2 := by linarith
  calc ⌊r + 1 / 2⌋ ≤ ⌊(w : ℚ) + 1 / 2⌋ := Int.floor_mono h2
    _ = (w : Int) := by
      rw [add_comm, Int.floor_add_nat]
      norm_num

/-- C10: for a non-empty item list with non-negative values, every bar-chart
line is the truncated/padded label, one space, then a bar region of exactly
`width` characters made of full blocks followed by spaces (the
eighth-resolution partial glyphs are never emitted, since the rounded bar
width has zero fractional part), then the optional value suffix. -/
theorem barChart_full_blocks_only (items : List BarChartItem)
    (options : BarChartOptions) (hne : items ≠ [])
    (hnn : ∀ it ∈ items, 0 ≤ it.value) :
    barChart items options = items.map (fun item =>
      padEnd (item.label.take options.maxLabelWidth) options.maxLabelWidth ++ ' ' ::
        (List.replicate (barW items options item).toNat '█' ++
          List.replicate (options.width - (barW items options item).toNat) ' ') ++
        (if options.showValue then ' ' :: options.valueFormatter item.value else [])) ∧
      ∀ it ∈ items, (barW items options it).toNat ≤ options.width := by
  have hlen : ¬items.length = 0 := fun h0 => hne (List.length_eq_zero.mp h0)
  have hmax1 : (1 : ℚ) ≤ (items.map (fun i => i.value)).foldl max 1 :=
    init_le_foldl_max _ 1
  have hbound : ∀ it ∈ items, (barW items options it).toNat ≤ options.width := by
    intro it hit
    have hv0 : 0 ≤ it.value := hnn it hit
    have hvle : it.value ≤ (items.map (fun i => i.value)).foldl max 1 :=
      mem_le_foldl_max _ 1 it.value (List.mem_map_of_mem _ hit)
    have hratio : it.value / ((items.map (fun i => i.value)).foldl max 1) ≤ 1 :=
      (div_le_one (by linarith)).mpr hvle
    have hr0 : 0 ≤ it.value / ((items.map (fun i => i.value)).foldl max 1) :=
      div_nonneg hv0 (by linarith)
    have hle : it.value / ((items.map (fun i => i.value)).foldl max 1) *
        (options.width : ℚ) ≤ (options.width : ℚ) := by
      calc it.value / ((items.map (fun i => i.value)).foldl max 1) * (options.width : ℚ)
          ≤ 1 * (options.width : ℚ) :=
            mul_le_mul_of_nonneg_right hratio (by positivity)
        _ = (options.width : ℚ) := one_mul _
    have := round_le_nat _ options.width hle
    unfold barW
    omega
  refine ⟨?_, hbound⟩
  unfold barChart
  rw [if_neg hlen]
  apply List.map_congr_left
  intro item hitem
  simp only [barW, Int.floor_intCast, sub_self, zero_mul, round_zero,
    lt_self_iff_false, false_and, if_false, ite_false, padEnd,
    List.length_replicate, BAR_FULL]

/-- C10 witness: two items and a width-4 bar. -/
theorem barChart_full_blocks_only_witness :
    barChart [⟨['a'], 1, none⟩, ⟨['b'], 3, none⟩] ⟨4, true, 3, fun _ => []⟩ =
        ([⟨['a'], 1, none⟩, ⟨['b'], 3, none⟩] : List BarChartItem).map (fun item =>
          padEnd (item.label.take 3) 3 ++ ' ' ::
            (List.replicate (barW [⟨['a'], 1, none⟩, ⟨['b'], 3, none⟩]
                ⟨4, true, 3, fun _ => []⟩ item).toNat '█' ++
              List.replicate (4 - (barW [⟨['a'], 1, none⟩, ⟨['b'], 3, none⟩]
                ⟨4, true, 3, fun _ => []⟩ item).toNat) ' ') ++
            (if true then ' ' :: ([] : List Char) else [])) ∧
      ∀ it ∈ ([⟨['a'], 1, none⟩, ⟨['b'], 3, none⟩] : List BarChartItem),
        (barW [⟨['a'], 1, none⟩, ⟨['b'], 3, none⟩] ⟨4, true, 3, fun _ => []⟩ it).toNat ≤ 4 :=
  barChart_full_blocks_only [⟨['a'], 1, none⟩, ⟨['b'], 3, none⟩] ⟨4, true, 3, fun _ => []⟩
    (by decide) (by decide)

end Flarectl
